import Mathlib

/-!
Verification of the trigram language-detection engine of the
languagedetector-polyfill repository (detection-engine: `analyzeScripts`,
`extractTrigrams`, `calculateTrigramScore`, `filterProfilesByScript`,
`detectLanguage`, `detectByScript`, and the `LanguageDetector` wrapper class).

The engine is embedded shallowly: JavaScript strings are Lean `String`s
iterated by codepoint (`String.data`), JS `Map`s are association lists in
insertion order, raw scores are exact rationals, and the floating-point
softmax normalization is modelled over the real numbers with `Real.exp`.
The language-profile catalog (module `language-profiles`, not part of the
analysed sources) is an explicit parameter of every engine function.
-/

namespace LangDetect

/-- `LanguageProfile` record from the profile catalog: a BCP-47 code, the
rank-ordered diagnostic trigrams and the compatible script names. -/
structure LanguageProfile where
  code : String
  trigrams : List String
  scripts : List String
deriving DecidableEq

/-- `ScriptInfo` record produced by `analyzeScripts`. -/
structure ScriptInfo where
  script : String
  count : ℕ
  ratio : ℚ
deriving DecidableEq

/-- `LanguageDetectionResult`: a language code with a confidence.
Confidences come out of the softmax normalization, so they live in `ℝ`. -/
structure LanguageDetectionResult where
  detectedLanguage : String
  confidence : ℝ

/-- The JavaScript `\s` whitespace class (also the set trimmed by
`String.prototype.trim`). -/
def isJsWhitespace (c : Char) : Bool :=
  c == ' ' || c == '\t' || c == '\n' || c.toNat == 0x0b || c.toNat == 0x0c ||
  c == '\r' || c.toNat == 0xa0 || c.toNat == 0x1680 ||
  (decide (0x2000 ≤ c.toNat) && decide (c.toNat ≤ 0x200a)) ||
  c.toNat == 0x2028 || c.toNat == 0x2029 || c.toNat == 0x202f ||
  c.toNat == 0x205f || c.toNat == 0x3000 || c.toNat == 0xfeff

/-- `text.trim()`: drop leading and trailing whitespace. -/
def trimChars (l : List Char) : List Char :=
  ((l.dropWhile isJsWhitespace).reverse.dropWhile isJsWhitespace).reverse

/-- One step of `replace(/\s+/g, ' ')`: the flag records whether the previous
character was part of a whitespace run already emitted as a single space. -/
def collapseWsAux : Bool → List Char → List Char
  | _, [] => []
  | prevWs, c :: rest =>
    if isJsWhitespace c then
      if prevWs then collapseWsAux true rest
      else ' ' :: collapseWsAux true rest
    else c :: collapseWsAux false rest

/-- `replace(/\s+/g, ' ')`: collapse every whitespace run to a single space. -/
def collapseWs (l : List Char) : List Char := collapseWsAux false l

/-- The normalization pipeline of `extractTrigrams`:
`toLowerCase`, `replace(/[0-9]/g, '')`, `replace(/\s+/g, ' ')`, `trim()`. -/
def normalizeChars (text : String) : List Char :=
  trimChars (collapseWs ((text.data.map Char.toLower).filter (fun c => !c.isDigit)))

/-- All 3-character windows of a character list, step 1
(the `substring(i, i + 3)` loop of `extractTrigrams`). -/
def windows3 : List Char → List (List Char)
  | a :: b :: c :: rest => [a, b, c] :: windows3 (b :: c :: rest)
  | _ => []

/-- `trigram.includes('  ')` for a window: two consecutive spaces. -/
def hasDoubleSpace : List Char → Bool
  | a :: b :: rest => (a == ' ' && b == ' ') || hasDoubleSpace (b :: rest)
  | _ => false

/-- `map.set(k, (map.get(k) || 0) + 1)` on an insertion-ordered
association list (the JS `Map` of the engine). -/
def bumpCount {α : Type} [DecidableEq α] : List (α × ℕ) → α → List (α × ℕ)
  | [], k => [(k, 1)]
  | e :: rest, k =>
    if e.1 = k then (e.1, e.2 + 1) :: rest else e :: bumpCount rest k

/-- `map.get(k) || 0` on the association list. -/
def countOf {α : Type} [DecidableEq α] (m : List (α × ℕ)) (k : α) : ℕ :=
  match m.find? (fun e => e.1 = k) with
  | some e => e.2
  | none => 0

/-- Occurrence-count map of a list, built by repeated `bumpCount`
(insertion order, as a JS `Map` filled by a loop). -/
def countMap {α : Type} [DecidableEq α] (l : List α) : List (α × ℕ) :=
  l.foldl bumpCount []

/-- `extractTrigrams`: normalize, slide a 3-character window, skip windows
with two consecutive spaces, and count occurrences. -/
def extractTrigrams (text : String) : List (String × ℕ) :=
  countMap ((windows3 (normalizeChars text)).filterMap
    (fun w => if hasDoubleSpace w then none else some (String.mk w)))

/-- The `SCRIPT_RANGES` table, in source order. -/
def scriptRanges : List (String × List (ℕ × ℕ)) :=
  [ ("Latin", [(0x0041, 0x007a), (0x00c0, 0x00ff), (0x0100, 0x017f),
      (0x0180, 0x024f), (0x1e00, 0x1eff)]),
    ("Cyrillic", [(0x0400, 0x04ff), (0x0500, 0x052f)]),
    ("Greek", [(0x0370, 0x03ff)]),
    ("Arabic", [(0x0600, 0x06ff), (0x0750, 0x077f), (0x08a0, 0x08ff),
      (0xfb50, 0xfdff), (0xfe70, 0xfeff)]),
    ("Hebrew", [(0x0590, 0x05ff)]),
    ("Devanagari", [(0x0900, 0x097f)]),
    ("Bengali", [(0x0980, 0x09ff)]),
    ("Tamil", [(0x0b80, 0x0bff)]),
    ("Thai", [(0x0e00, 0x0e7f)]),
    ("Han", [(0x4e00, 0x9fff), (0x3400, 0x4dbf), (0x20000, 0x2a6df),
      (0xf900, 0xfaff)]),
    ("Hiragana", [(0x3040, 0x309f)]),
    ("Katakana", [(0x30a0, 0x30ff), (0x31f0, 0x31ff)]),
    ("Hangul", [(0xac00, 0xd7af), (0x1100, 0x11ff), (0x3130, 0x318f)]) ]

/-- Scan of the range table: first script having a range containing the
codepoint (the nested `for` loops of `getCharacterScript`). -/
def findScript (code : ℕ) : List (String × List (ℕ × ℕ)) → Option String
  | [] => none
  | e :: rest =>
    if e.2.any (fun r => decide (r.1 ≤ code) && decide (code ≤ r.2)) then
      some e.1
    else findScript code rest

/-- `getCharacterScript`: Unicode script of one character. -/
def getCharacterScript (c : Char) : Option String :=
  findScript c.toNat scriptRanges

/-- The `scriptCounts` map of `analyzeScripts`, filled in text order. -/
def scriptCountsOf (text : String) : List (String × ℕ) :=
  text.data.foldl
    (fun m c =>
      match getCharacterScript c with
      | some sc => bumpCount m sc
      | none => m) []

/-- The `totalScriptChars` counter of `analyzeScripts`: characters matching
some script range. -/
def totalScriptChars (text : String) : ℕ :=
  text.data.countP (fun c => (getCharacterScript c).isSome)

/-- Count-descending order used by `results.sort((a, b) => b.count - a.count)`. -/
def descCount (a b : ScriptInfo) : Prop := b.count ≤ a.count

instance : DecidableRel descCount := fun a b => inferInstanceAs (Decidable (b.count ≤ a.count))

instance : IsTotal ScriptInfo descCount := ⟨fun a b => le_total b.count a.count⟩

instance : IsTrans ScriptInfo descCount := ⟨fun _ _ _ h1 h2 => le_trans h2 h1⟩

/-- `analyzeScripts`: per-script counts, ratio over script-matched
characters only, sorted by count descending (stable sort, as in JS). -/
def analyzeScripts (text : String) : List ScriptInfo :=
  List.insertionSort descCount
    ((scriptCountsOf text).map fun e =>
      { script := e.1, count := e.2,
        ratio := if 0 < totalScriptChars text then
            (e.2 : ℚ) / (totalScriptChars text : ℚ) else 0 })

/-- `calculateTrigramScore`: accumulate
`(count / totalTextTrigrams) * (1 - profileIndex / profileLength)` over the
text trigrams found in the profile; `0` when the text has no trigrams. -/
def calculateTrigramScore (textTrigrams : List (String × ℕ))
    (profile : LanguageProfile) : ℚ :=
  let totalTextTrigrams : ℕ := (textTrigrams.map fun tc => tc.2).sum
  if totalTextTrigrams = 0 then 0
  else
    textTrigrams.foldl
      (fun score tc =>
        if profile.trigrams.contains tc.1 then
          score + ((tc.2 : ℚ) / (totalTextTrigrams : ℚ)) *
            (1 - (profile.trigrams.indexOf tc.1 : ℚ) /
              (profile.trigrams.length : ℚ))
        else score) 0

/-- `filterProfilesByScript`: when a dominant script covers more than half of
the script-matched characters, keep only compatible profiles — unless that
keeps nothing, in which case the filter is skipped. -/
def filterProfilesByScript (profiles : List LanguageProfile)
    (scripts : List ScriptInfo) : List LanguageProfile :=
  match scripts with
  | [] => profiles
  | dominantScript :: _ =>
    if (1 : ℚ) / 2 < dominantScript.ratio then
      let filtered := profiles.filter (fun p => p.scripts.contains dominantScript.script)
      if 0 < filtered.length then filtered else profiles
    else profiles

/-- The Profile Catalog, instantiated by the external `language-profiles`
module: the `languageProfiles` array. -/
structure Catalog where
  profiles : List LanguageProfile
deriving DecidableEq

/-- Modelled from the spec: `languageProfileMap.get`, the catalog
lookup-by-normalized-code of the `language-profiles` module, which is not
among the analysed sources (§4.3: the catalog "exposes:
lookup-by-normalized-code"): the profile whose code equals the given
normalized tag. -/
def Catalog.lookup (cat : Catalog) (code : String) : Option LanguageProfile :=
  cat.profiles.find? (fun p => p.code == code)

/-- `lang.split('-')[0].toLowerCase()`: hint normalization — the prefix
before the first `'-'`, lowercased. -/
def normalizeHint (lang : String) : String :=
  String.mk ((lang.data.takeWhile (fun c => c != '-')).map Char.toLower)

/-- Candidate resolution from the `expectedLanguages` hints: resolve each
normalized hint against the catalog, drop the unresolved ones, and fall back
to the full catalog when nothing resolves (or no hints are supplied). -/
def hintProfiles (cat : Catalog) : Option (List String) → List LanguageProfile
  | some langs =>
    if 0 < langs.length then
      let resolved := (langs.map (fun lang => cat.lookup (normalizeHint lang))).reduceOption
      if resolved.length = 0 then cat.profiles else resolved
    else cat.profiles
  | none => cat.profiles

/-- Per-profile score of the `detectLanguage` loop: the trigram score,
multiplied by `1 + ratio * 0.5` for the first detected script compatible
with the profile. -/
def scoreOf (scripts : List ScriptInfo) (textTrigrams : List (String × ℕ))
    (p : LanguageProfile) : ℚ :=
  let base := calculateTrigramScore textTrigrams p
  match scripts.find? (fun s => p.scripts.contains s.script) with
  | some scriptMatch => base * (1 + scriptMatch.ratio * (1 / 2))
  | none => base

/-- Score-descending order used by `scores.sort((a, b) => b.score - a.score)`. -/
def descScore (a b : LanguageProfile × ℚ) : Prop := b.2 ≤ a.2

instance : DecidableRel descScore := fun a b => inferInstanceAs (Decidable (b.2 ≤ a.2))

instance : IsTotal (LanguageProfile × ℚ) descScore := ⟨fun a b => le_total b.2 a.2⟩

instance : IsTrans (LanguageProfile × ℚ) descScore := ⟨fun _ _ _ h1 h2 => le_trans h2 h1⟩

/-- The scored, score-descending candidate list of `detectLanguage` for an
already trimmed text: script analysis, hint resolution, script filter,
trigram extraction, scoring, and the stable descending sort. -/
def scoredSorted (cat : Catalog) (expectedLanguages : Option (List String))
    (normalizedText : String) : List (LanguageProfile × ℚ) :=
  let scripts := analyzeScripts normalizedText
  let profilesToEvaluate := filterProfilesByScript (hintProfiles cat expectedLanguages) scripts
  let textTrigrams := extractTrigrams normalizedText
  List.insertionSort descScore
    (profilesToEvaluate.map fun p => (p, scoreOf scripts textTrigrams p))

/-- The `{ detectedLanguage: 'und', confidence: 0 }` sentinel. -/
def undResult : LanguageDetectionResult := ⟨"und", 0⟩

/-- `totalScore`: the softmax denominator `Σ exp(score * 10)` over all
scored candidates. -/
noncomputable def softmaxDenom (scores : List (LanguageProfile × ℚ)) : ℝ :=
  (scores.map fun s => Real.exp ((s.2 : ℝ) * 10)).sum

/-- The per-candidate confidences
`totalScore > 0 ? exp(score * 10) / totalScore : 0`. -/
noncomputable def softmaxResults (scores : List (LanguageProfile × ℚ)) :
    List LanguageDetectionResult :=
  scores.map fun s =>
    { detectedLanguage := s.1.code,
      confidence :=
        if 0 < softmaxDenom scores then
          Real.exp ((s.2 : ℝ) * 10) / softmaxDenom scores
        else 0 }

/-- `results.filter(r => r.confidence > 0.001).slice(0, 10)`. -/
noncomputable def survivors (scores : List (LanguageProfile × ℚ)) :
    List LanguageDetectionResult :=
  ((softmaxResults scores).filter
    (fun r => decide ((1 : ℝ) / 1000 < r.confidence))).take 10

/-- The confidence normalizer of `detectLanguage`: softmax, low-confidence
filter, top-10 truncation, and the sentinel fallback. -/
noncomputable def normalizeAndFilter (scores : List (LanguageProfile × ℚ)) :
    List LanguageDetectionResult :=
  if (survivors scores).isEmpty then [undResult] else survivors scores

/-- `detectLanguage(text, expectedLanguages?)`: the core engine. -/
noncomputable def detectLanguage (cat : Catalog) (text : String)
    (expectedLanguages : Option (List String)) : List LanguageDetectionResult :=
  let normalizedText : String := String.mk (trimChars text.data)
  if normalizedText.length = 0 then [undResult]
  else normalizeAndFilter (scoredSorted cat expectedLanguages normalizedText)

/-- The `scriptToLang` record of `detectByScript`. -/
def scriptToLang : String → Option String
  | "Hangul" => some "ko"
  | "Thai" => some "th"
  | "Hebrew" => some "he"
  | "Bengali" => some "bn"
  | "Tamil" => some "ta"
  | "Devanagari" => some "hi"
  | _ => none

/-- `detectByScript`: the script fast path. -/
def detectByScript (text : String) : Option (String × ℚ) :=
  match analyzeScripts text with
  | [] => none
  | dominant :: rest =>
    if dominant.ratio < 7 / 10 then none
    else
      let scripts := dominant :: rest
      let hasHiragana := scripts.any (fun s => s.script == "Hiragana")
      let hasKatakana := scripts.any (fun s => s.script == "Katakana")
      if hasHiragana || hasKatakana then some ("ja", dominant.ratio)
      else if dominant.script == "Han" then some ("zh", dominant.ratio)
      else
        match scriptToLang dominant.script with
        | some lang => some (lang, dominant.ratio)
        | none => none

/-- Confidence-descending order used by
`sort((a, b) => b.confidence - a.confidence)` in the wrapper. -/
def descConf (a b : LanguageDetectionResult) : Prop :=
  b.confidence ≤ a.confidence

noncomputable instance : DecidableRel descConf :=
  fun a b => inferInstanceAs (Decidable (b.confidence ≤ a.confidence))

/-- The mutable fields of a `LanguageDetector` instance. -/
structure DetectorState where
  destroyed : Bool
  expectedInputLanguages : List String
  inputQuota : ℤ

/-- The `DOMException('LanguageDetector has been destroyed',
'InvalidStateError')` raised by `checkDestroyed`. -/
inductive DetectorError where
  | invalidState
deriving DecidableEq

/-- `LanguageDetector.prototype.detect`: quota update, script fast path with
boost and re-normalization when its confidence exceeds 0.9, otherwise plain
trigram detection. Returns the result list and the updated instance state. -/
noncomputable def LanguageDetector.detect (cat : Catalog) (st : DetectorState)
    (text : String) :
    Except DetectorError (List LanguageDetectionResult × DetectorState) :=
  if st.destroyed then Except.error DetectorError.invalidState
  else
    let st1 : DetectorState :=
      { st with inputQuota := max 0 (st.inputQuota - (text.length : ℤ)) }
    let hints : Option (List String) :=
      if 0 < st.expectedInputLanguages.length then some st.expectedInputLanguages
      else none
    match detectByScript text with
    | some scriptResult =>
      if (9 : ℚ) / 10 < scriptResult.2 then
        let fullResults := detectLanguage cat text hints
        let boosted := fullResults.map fun r =>
          if r.detectedLanguage == scriptResult.1 then
            { detectedLanguage := r.detectedLanguage,
              confidence := min 1 (r.confidence + (scriptResult.2 : ℝ) * (3 / 10)) }
          else r
        let total := (boosted.map fun r => r.confidence).sum
        Except.ok
          (List.insertionSort descConf
            (boosted.map fun r =>
              { detectedLanguage := r.detectedLanguage,
                confidence := if 0 < total then r.confidence / total else 0 }),
            st1)
      else Except.ok (detectLanguage cat text hints, st1)
    | none => Except.ok (detectLanguage cat text hints, st1)

/-- A one-entry demonstration catalog used to instantiate the theorems at
concrete inputs (the real catalog is external data). -/
def enProfile : LanguageProfile :=
  { code := "en", trigrams := ["the", "he ", " th", "and"], scripts := ["Latin"] }

/-- Demonstration catalog holding only `enProfile`. -/
def demoCatalog : Catalog := ⟨[enProfile]⟩

/-! ### Association-list counting lemmas -/

theorem countOf_nil {α : Type} [DecidableEq α] (k : α) : countOf ([] : List (α × ℕ)) k = 0 := rfl

theorem countOf_cons {α : Type} [DecidableEq α] (e : α × ℕ) (m : List (α × ℕ)) (k : α) :
    countOf (e :: m) k = if e.1 = k then e.2 else countOf m k := by
  by_cases h : e.1 = k <;> simp [countOf, List.find?_cons, h]

theorem countOf_bumpCount {α : Type} [DecidableEq α] (m : List (α × ℕ)) (k k' : α) :
    countOf (bumpCount m k) k' = countOf m k' + if k' = k then 1 else 0 := by
  induction m with
  | nil =>
    simp only [bumpCount, countOf_cons, countOf_nil]
    by_cases h : k' = k
    · simp [h]
    · rw [if_neg (fun hk => h hk.symm), if_neg h]
  | cons e rest ih =>
    by_cases he : e.1 = k
    · simp only [bumpCount, if_pos he, countOf_cons]
      by_cases h' : e.1 = k'
      · rw [if_pos h', if_pos h', if_pos (h'.symm.trans he)]
      · rw [if_neg h', if_neg h', if_neg (fun hk => h' (he.trans hk.symm))]
        omega
    · simp only [bumpCount, if_neg he, countOf_cons]
      by_cases h' : e.1 = k'
      · rw [if_pos h', if_pos h',
          if_neg (fun hk : k' = k => he (h'.trans hk))]
        omega
      · rw [if_neg h', if_neg h', ih]

theorem countOf_foldl_bumpCount {α : Type} [DecidableEq α] :
    ∀ (l : List α) (m : List (α × ℕ)) (k : α),
      countOf (l.foldl bumpCount m) k
        = countOf m k + l.countP (fun x => decide (x = k))
  | [], m, k => by simp
  | x :: l, m, k => by
    rw [List.foldl_cons, countOf_foldl_bumpCount l (bumpCount m x) k,
      countOf_bumpCount, List.countP_cons]
    by_cases h : x = k <;> simp [h, eq_comm] <;> omega

theorem countOf_countMap {α : Type} [DecidableEq α] (l : List α) (k : α) :
    countOf (countMap l) k = l.countP (fun x => decide (x = k)) := by
  rw [countMap, countOf_foldl_bumpCount, countOf_nil, Nat.zero_add]

theorem sum_snd_bumpCount {α : Type} [DecidableEq α] (m : List (α × ℕ)) (k : α) :
    ((bumpCount m k).map (fun e => e.2)).sum = ((m.map fun e => e.2).sum) + 1 := by
  induction m with
  | nil => simp [bumpCount]
  | cons e rest ih =>
    by_cases h : e.1 = k <;> simp [bumpCount, h, ih] <;> omega

theorem sum_snd_foldl_bumpCount {α : Type} [DecidableEq α] :
    ∀ (l : List α) (m : List (α × ℕ)),
      (((l.foldl bumpCount m).map fun e => e.2).sum)
        = ((m.map fun e => e.2).sum) + l.length
  | [], m => by simp
  | x :: l, m => by
    rw [List.foldl_cons, sum_snd_foldl_bumpCount l (bumpCount m x),
      sum_snd_bumpCount, List.length_cons]
    omega

theorem bumpCount_ne_nil {α : Type} [DecidableEq α] (m : List (α × ℕ)) (k : α) :
    bumpCount m k ≠ [] := by
  cases m with
  | nil => simp [bumpCount]
  | cons e rest => by_cases h : e.1 = k <;> simp [bumpCount, h]

theorem foldl_bumpCount_ne_nil {α : Type} [DecidableEq α] :
    ∀ (l : List α) (m : List (α × ℕ)), m ≠ [] → l.foldl bumpCount m ≠ []
  | [], m, hm => hm
  | x :: l, m, hm =>
    foldl_bumpCount_ne_nil l (bumpCount m x) (bumpCount_ne_nil m x)

theorem countMap_eq_nil_iff {α : Type} [DecidableEq α] (l : List α) :
    countMap l = [] ↔ l = [] := by
  cases l with
  | nil => simp [countMap]
  | cons x l =>
    simp only [countMap, List.foldl_cons]
    exact ⟨fun h => absurd h (foldl_bumpCount_ne_nil l _ (bumpCount_ne_nil [] x)),
      fun h => by cases h⟩

/-! ### Trigram-extractor lemmas (C8) -/

theorem windows3_eq_nil_of_short : ∀ l : List Char, l.length < 3 → windows3 l = []
  | [], _ => rfl
  | [_], _ => rfl
  | [_, _], _ => rfl
  | _ :: _ :: _ :: _, h => by simp at h; omega

/-- C8: `extractTrigrams` is the occurrence-count map of the 3-character
windows (step 1) of the normalized text, windows containing two consecutive
spaces discarded; it is empty when the normalized text has fewer than 3
characters; `extractTrigrams("hello")` holds `"hel"`, `"ell"`, `"llo"` with
count at least 1, and `extractTrigrams("HELLO")` has the identical key set. -/
theorem extractTrigrams_spec (s : String) :
    ((normalizeChars s).length < 3 → extractTrigrams s = []) ∧
    (∀ t : String, countOf (extractTrigrams s) t =
      ((windows3 (normalizeChars s)).filterMap
        (fun w => if hasDoubleSpace w then none else some (String.mk w))).countP
          (fun x => decide (x = t))) ∧
    1 ≤ countOf (extractTrigrams "hello") "hel" ∧
    1 ≤ countOf (extractTrigrams "hello") "ell" ∧
    1 ≤ countOf (extractTrigrams "hello") "llo" ∧
    (extractTrigrams "HELLO").map (fun e => e.1)
      = (extractTrigrams "hello").map (fun e => e.1) := by
  refine ⟨fun h => ?_, fun t => countOf_countMap _ t, ?_, ?_, ?_, ?_⟩
  · rw [extractTrigrams, windows3_eq_nil_of_short _ h]
    rfl
  · decide
  · decide
  · decide
  · decide

/-- Witness for C8 at concrete inputs: a two-character text yields no
trigrams. -/
theorem extractTrigrams_spec_witness :
    (normalizeChars " ab1 ").length < 3 ∧ extractTrigrams " ab1 " = [] := by
  refine ⟨by decide, (extractTrigrams_spec " ab1 ").1 (by decide)⟩

/-! ### Script-classifier lemmas (C9) -/

theorem foldl_script_eq :
    ∀ (l : List Char) (m : List (String × ℕ)),
      l.foldl
        (fun m c =>
          match getCharacterScript c with
          | some sc => bumpCount m sc
          | none => m) m
        = (l.filterMap getCharacterScript).foldl bumpCount m
  | [], _ => rfl
  | c :: l, m => by
    cases h : getCharacterScript c <;>
      simp [List.filterMap_cons, h, foldl_script_eq l]

theorem scriptCountsOf_eq (text : String) :
    scriptCountsOf text = countMap (text.data.filterMap getCharacterScript) := by
  rw [scriptCountsOf, foldl_script_eq, countMap]

theorem length_filterMap_eq_countP {α β : Type} (f : α → Option β) :
    ∀ l : List α, (l.filterMap f).length = l.countP (fun x => (f x).isSome)
  | [] => rfl
  | x :: l => by
    cases h : f x <;>
      simp [List.filterMap_cons, h, List.countP_cons,
        length_filterMap_eq_countP f l]

theorem totalScriptChars_eq (text : String) :
    totalScriptChars text = (text.data.filterMap getCharacterScript).length := by
  rw [totalScriptChars, length_filterMap_eq_countP]

/-- C9: `analyzeScripts` returns a count-descending list of `ScriptInfo`
whose ratios are `count / totalScriptMatchedChars` (characters matching no
script range are excluded from counts and from the denominator), and the
list is empty exactly when no character matches a script range. -/
theorem analyzeScripts_spec (text : String) :
    List.Sorted descCount (analyzeScripts text) ∧
    (∀ e ∈ analyzeScripts text,
      e.ratio = (e.count : ℚ) /
        (((text.data.filterMap getCharacterScript).length : ℕ) : ℚ)) ∧
    (analyzeScripts text = [] ↔ ∀ c ∈ text.data, getCharacterScript c = none) := by
  refine ⟨?_, fun e he => ?_, ?_⟩
  · rw [analyzeScripts]
    exact List.sorted_insertionSort descCount _
  · rw [analyzeScripts, (List.perm_insertionSort descCount _).mem_iff] at he
    obtain ⟨a, _, rfl⟩ := List.mem_map.1 he
    simp only [← totalScriptChars_eq]
    by_cases h : 0 < totalScriptChars text
    · rw [if_pos h]
    · rw [if_neg h]
      have h0 : totalScriptChars text = 0 := by omega
      rw [h0]
      simp
  · constructor
    · intro h
      have hlen := congrArg List.length h
      rw [analyzeScripts, List.length_insertionSort, List.length_map,
        List.length_nil] at hlen
      have hnil : scriptCountsOf text = [] := List.length_eq_zero.1 hlen
      rw [scriptCountsOf_eq, countMap_eq_nil_iff] at hnil
      exact fun c hc => by
        by_contra hne
        cases hg : getCharacterScript c with
        | none => exact hne hg
        | some sc =>
          exact absurd hnil (by simp [List.filterMap_eq_nil_iff]; exact ⟨c, hc, by simp [hg]⟩)
    · intro h
      have hfm : text.data.filterMap getCharacterScript = [] := by
        simp [List.filterMap_eq_nil_iff]
        intro c hc
        simp [h c hc]
      have : scriptCountsOf text = [] := by
        rw [scriptCountsOf_eq, hfm]
        rfl
      rw [analyzeScripts, this]
      rfl

/-- Witness for C9 at a concrete input. -/
theorem analyzeScripts_spec_witness :
    (analyzeScripts "!?" = [] ↔ ∀ c ∈ "!?".data, getCharacterScript c = none) ∧
    analyzeScripts "!?" = [] :=
  ⟨(analyzeScripts_spec "!?").2.2, (analyzeScripts_spec "!?").2.2.2 (by decide)⟩

/-! ### Scorer lemmas (C4) -/

theorem foldl_if_add {α : Type} (P : α → Bool) (f : α → ℚ) :
    ∀ (l : List α) (a : ℚ),
      l.foldl (fun s x => if P x then s + f x else s) a
        = a + ((l.filter P).map f).sum
  | [], a => by simp
  | x :: l, a => by
    cases hP : P x <;>
      simp only [List.foldl_cons, List.filter_cons, hP, if_pos, if_neg,
        Bool.false_eq_true, not_false_eq_true, List.map_cons, List.sum_cons,
        foldl_if_add P f l, ite_true, ite_false] <;> ring

theorem sum_map_div {α : Type} (g : α → ℚ) (T : ℚ) :
    ∀ l : List α, (l.map fun x => g x / T).sum = (l.map g).sum / T
  | [] => by simp
  | x :: l => by simp [sum_map_div g T l, add_div]

theorem cast_sum_counts (l : List (String × ℕ)) :
    (((l.map fun e => e.2).sum : ℕ) : ℚ) = (l.map fun e => ((e.2 : ℕ) : ℚ)).sum := by
  rw [Nat.cast_list_sum, List.map_map]
  rfl

/-- The summand of the trigram score for one text-trigram entry. -/
def trigramTerm (textTrigrams : List (String × ℕ)) (p : LanguageProfile)
    (tc : String × ℕ) : ℚ :=
  ((tc.2 : ℚ) / (((textTrigrams.map fun e => e.2).sum : ℕ) : ℚ)) *
    (1 - (p.trigrams.indexOf tc.1 : ℚ) / (p.trigrams.length : ℚ))

theorem calculateTrigramScore_eq_sum (textTrigrams : List (String × ℕ))
    (p : LanguageProfile) :
    calculateTrigramScore textTrigrams p
      = ((textTrigrams.filter fun tc => p.trigrams.contains tc.1).map
          (trigramTerm textTrigrams p)).sum := by
  rw [calculateTrigramScore]
  by_cases hT : (textTrigrams.map fun e => e.2).sum = 0
  · rw [if_pos hT]
    have hz : ∀ tc ∈ textTrigrams, tc.2 = 0 := by
      intro tc htc
      have := (List.sum_eq_zero_iff.1 hT) tc.2 (List.mem_map.2 ⟨tc, htc, rfl⟩)
      exact this
    refine (List.sum_eq_zero ?_).symm
    intro x hx
    obtain ⟨tc, htc, rfl⟩ := List.mem_map.1 hx
    have := hz tc (List.mem_of_mem_filter htc)
    simp [trigramTerm, this]
  · rw [if_neg hT, foldl_if_add, zero_add]
    rfl

theorem weight_nonneg_of_mem (p : LanguageProfile) {t : String}
    (ht : p.trigrams.contains t = true) :
    0 ≤ 1 - (p.trigrams.indexOf t : ℚ) / (p.trigrams.length : ℚ) := by
  have hmem : t ∈ p.trigrams := List.mem_of_elem_eq_true ht
  have hidx : p.trigrams.indexOf t < p.trigrams.length :=
    List.indexOf_lt_length.2 hmem
  have hlen : 0 < (p.trigrams.length : ℚ) := by
    exact_mod_cast Nat.lt_of_le_of_lt (Nat.zero_le _) hidx
  have : (p.trigrams.indexOf t : ℚ) / (p.trigrams.length : ℚ) ≤ 1 := by
    rw [div_le_one hlen]
    exact_mod_cast le_of_lt hidx
  linarith

theorem weight_le_one (p : LanguageProfile) (t : String) :
    1 - (p.trigrams.indexOf t : ℚ) / (p.trigrams.length : ℚ) ≤ 1 := by
  have h1 : (0 : ℚ) ≤ (p.trigrams.indexOf t : ℚ) := by positivity
  have h2 : (0 : ℚ) ≤ (p.trigrams.length : ℚ) := by positivity
  have : 0 ≤ (p.trigrams.indexOf t : ℚ) / (p.trigrams.length : ℚ) := by positivity
  linarith

theorem trigramTerm_nonneg (textTrigrams : List (String × ℕ))
    (p : LanguageProfile) (tc : String × ℕ)
    (ht : p.trigrams.contains tc.1 = true) :
    0 ≤ trigramTerm textTrigrams p tc := by
  have h1 : (0 : ℚ) ≤ (tc.2 : ℚ) / (((textTrigrams.map fun e => e.2).sum : ℕ) : ℚ) := by
    positivity
  exact mul_nonneg h1 (weight_nonneg_of_mem p ht)

theorem calculateTrigramScore_nonneg (textTrigrams : List (String × ℕ))
    (p : LanguageProfile) : 0 ≤ calculateTrigramScore textTrigrams p := by
  rw [calculateTrigramScore_eq_sum]
  refine List.sum_nonneg ?_
  intro x hx
  obtain ⟨tc, htc, rfl⟩ := List.mem_map.1 hx
  exact trigramTerm_nonneg textTrigrams p tc ((List.mem_filter.1 htc).2)

theorem calculateTrigramScore_le_one (textTrigrams : List (String × ℕ))
    (p : LanguageProfile) : calculateTrigramScore textTrigrams p ≤ 1 := by
  rw [calculateTrigramScore_eq_sum]
  set T : ℚ := (((textTrigrams.map fun e => e.2).sum : ℕ) : ℚ) with hT
  have hTnn : (0 : ℚ) ≤ T := by positivity
  have step1 :
      ((textTrigrams.filter fun tc => p.trigrams.contains tc.1).map
        (trigramTerm textTrigrams p)).sum
      ≤ ((textTrigrams.filter fun tc => p.trigrams.contains tc.1).map
        (fun tc => (tc.2 : ℚ) / T)).sum := by
    refine List.sum_le_sum ?_
    intro tc htc
    have hc : p.trigrams.contains tc.1 = true := (List.mem_filter.1 htc).2
    have hnn : (0 : ℚ) ≤ (tc.2 : ℚ) / T := by positivity
    calc trigramTerm textTrigrams p tc
        ≤ ((tc.2 : ℚ) / T) * 1 :=
          mul_le_mul_of_nonneg_left (weight_le_one p tc.1) hnn
      _ = (tc.2 : ℚ) / T := mul_one _
  have step2 :
      ((textTrigrams.filter fun tc => p.trigrams.contains tc.1).map
        (fun tc => (tc.2 : ℚ) / T)).sum
      ≤ (textTrigrams.map fun tc => (tc.2 : ℚ) / T).sum := by
    refine List.Sublist.sum_le_sum
      (List.Sublist.map _ (List.filter_sublist textTrigrams)) ?_
    intro a ha
    obtain ⟨tc, _, rfl⟩ := List.mem_map.1 ha
    positivity
  have step3 : (textTrigrams.map fun tc => (tc.2 : ℚ) / T).sum ≤ 1 := by
    rw [sum_map_div, ← cast_sum_counts, ← hT]
    by_cases h0 : T = 0
    · rw [h0, div_zero]
      norm_num
    · rw [div_self h0]
  exact le_trans step1 (le_trans step2 step3)

/-- C4: for a profile with a non-empty trigram list, the scorer returns
the sum over trigrams present in both the text and the profile of
`(count / totalTextTrigramCount) * (1 - profileIndex / profileLength)`
(non-matching trigrams contribute nothing), the raw score lies in `[0, 1]`,
and the detection loop multiplies it by `1 + matchingScriptRatio * 0.5`
exactly when some detected script is in the profile's script set. -/
theorem calculateTrigramScore_spec (textTrigrams : List (String × ℕ))
    (scripts : List ScriptInfo) (p : LanguageProfile)
    (hp : p.trigrams ≠ []) :
    calculateTrigramScore textTrigrams p
      = ((textTrigrams.filter fun tc => p.trigrams.contains tc.1).map
          (trigramTerm textTrigrams p)).sum ∧
    0 ≤ calculateTrigramScore textTrigrams p ∧
    calculateTrigramScore textTrigrams p ≤ 1 ∧
    (∀ sm, scripts.find? (fun si => p.scripts.contains si.script) = some sm →
      scoreOf scripts textTrigrams p
        = calculateTrigramScore textTrigrams p * (1 + sm.ratio * (1 / 2))) ∧
    ((∃ si ∈ scripts, p.scripts.contains si.script) →
      ∃ sm, scripts.find? (fun si => p.scripts.contains si.script) = some sm) ∧
    (scripts.find? (fun si => p.scripts.contains si.script) = none →
      scoreOf scripts textTrigrams p = calculateTrigramScore textTrigrams p) := by
  refine ⟨calculateTrigramScore_eq_sum textTrigrams p,
    calculateTrigramScore_nonneg textTrigrams p,
    calculateTrigramScore_le_one textTrigrams p, ?_, ?_, ?_⟩
  · intro sm hsm
    rw [scoreOf, hsm]
  · intro ⟨si, hsi, hc⟩
    have : (scripts.find? (fun si => p.scripts.contains si.script)).isSome := by
      rw [List.find?_isSome]
      exact ⟨si, hsi, hc⟩
    exact Option.isSome_iff_exists.1 this
  · intro hnone
    rw [scoreOf, hnone]

/-- Witness for C4 at concrete inputs. -/
theorem calculateTrigramScore_spec_witness :
    enProfile.trigrams ≠ [] ∧
    0 ≤ calculateTrigramScore [("the", 2), ("xyz", 1)] enProfile ∧
    calculateTrigramScore [("the", 2), ("xyz", 1)] enProfile ≤ 1 :=
  ⟨by decide,
    (calculateTrigramScore_spec [("the", 2), ("xyz", 1)] [] enProfile (by decide)).2.1,
    (calculateTrigramScore_spec [("the", 2), ("xyz", 1)] [] enProfile (by decide)).2.2.1⟩

/-! ### Script fast-path lemmas (C5) -/

theorem detectByScript_nil {text : String} (h : analyzeScripts text = []) :
    detectByScript text = none := by
  simp only [detectByScript, h]

theorem detectByScript_cons {d : ScriptInfo} {rest : List ScriptInfo}
    {text : String} (h : analyzeScripts text = d :: rest) :
    detectByScript text =
      if d.ratio < 7 / 10 then none
      else if ((d :: rest).any fun s => s.script == "Hiragana") ||
          ((d :: rest).any fun s => s.script == "Katakana") then
        some ("ja", d.ratio)
      else if d.script == "Han" then some ("zh", d.ratio)
      else
        match scriptToLang d.script with
        | some lang => some (lang, d.ratio)
        | none => none := by
  simp only [detectByScript, h]

/-- C5: the fast path returns a result only when the script list is
non-empty and the dominant ratio is at least 0.7, and then its confidence is
the dominant ratio; under that gate, presence of Hiragana or Katakana gives
`ja`; otherwise a dominant Han script gives `zh`; otherwise the result is
the fixed table lookup (Hangul→ko, Thai→th, Hebrew→he, Bengali→bn,
Tamil→ta, Devanagari→hi), which yields `none` for every other script. -/
theorem detectByScript_spec (text : String) :
    (∀ r, detectByScript text = some r →
      ∃ d rest, analyzeScripts text = d :: rest ∧ 7 / 10 ≤ d.ratio ∧
        r.2 = d.ratio) ∧
    (∀ d rest, analyzeScripts text = d :: rest → 7 / 10 ≤ d.ratio →
      ((((d :: rest).any fun s => s.script == "Hiragana") ||
          ((d :: rest).any fun s => s.script == "Katakana")) = true →
        detectByScript text = some ("ja", d.ratio)) ∧
      ((((d :: rest).any fun s => s.script == "Hiragana") ||
          ((d :: rest).any fun s => s.script == "Katakana")) = false →
        d.script = "Han" → detectByScript text = some ("zh", d.ratio)) ∧
      ((((d :: rest).any fun s => s.script == "Hiragana") ||
          ((d :: rest).any fun s => s.script == "Katakana")) = false →
        d.script ≠ "Han" →
        detectByScript text
          = (scriptToLang d.script).map (fun lang => (lang, d.ratio)))) ∧
    scriptToLang "Hangul" = some "ko" ∧ scriptToLang "Thai" = some "th" ∧
    scriptToLang "Hebrew" = some "he" ∧ scriptToLang "Bengali" = some "bn" ∧
    scriptToLang "Tamil" = some "ta" ∧ scriptToLang "Devanagari" = some "hi" := by
  refine ⟨?_, ?_, rfl, rfl, rfl, rfl, rfl, rfl⟩
  · intro r hr
    cases h : analyzeScripts text with
    | nil => rw [detectByScript_nil h] at hr; cases hr
    | cons d rest =>
      rw [detectByScript_cons h] at hr
      by_cases h7 : d.ratio < 7 / 10
      · rw [if_pos h7] at hr; cases hr
      · rw [if_neg h7] at hr
        refine ⟨d, rest, rfl, le_of_not_lt h7, ?_⟩
        by_cases hk : (((d :: rest).any fun s => s.script == "Hiragana") ||
            ((d :: rest).any fun s => s.script == "Katakana")) = true
        · rw [if_pos hk] at hr
          cases hr; rfl
        · rw [if_neg hk] at hr
          by_cases hh : (d.script == "Han") = true
          · rw [if_pos hh] at hr
            cases hr; rfl
          · rw [if_neg hh] at hr
            cases hm : scriptToLang d.script with
            | none => rw [hm] at hr; cases hr
            | some lang => rw [hm] at hr; cases hr; rfl
  · intro d rest h h7
    have hgate : ¬ d.ratio < 7 / 10 := not_lt.2 h7
    refine ⟨fun hk => ?_, fun hk hHan => ?_, fun hk hHan => ?_⟩
    · rw [detectByScript_cons h, if_neg hgate, if_pos hk]
    · rw [detectByScript_cons h, if_neg hgate, hk]
      simp only [Bool.false_eq_true, if_false]
      rw [if_pos (by simp [hHan])]
    · rw [detectByScript_cons h, if_neg hgate, hk]
      simp only [Bool.false_eq_true, if_false]
      rw [if_neg (by simp [hHan])]
      cases hm : scriptToLang d.script <;> simp [hm]

/-- Witness for C5: three Hangul syllables map to `ko` with the dominant
ratio 1. -/
theorem detectByScript_spec_witness :
    analyzeScripts "가나다" = [⟨"Hangul", 3, 1⟩] ∧
    detectByScript "가나다" = some ("ko", 1) := by
  have h : analyzeScripts "가나다" = [⟨"Hangul", 3, 1⟩] := by
    rw [analyzeScripts,
      (by decide : scriptCountsOf "가나다" = [("Hangul", 3)]),
      (by decide : totalScriptChars "가나다" = 3)]
    norm_num [List.insertionSort]
  refine ⟨h, ?_⟩
  have hs := (detectByScript_spec "가나다").2.1 ⟨"Hangul", 3, 1⟩ [] h (by norm_num)
  have := hs.2.2 (by decide) (by decide)
  rw [this]
  rfl

/-! ### Hint-resolution lemmas (C6) -/

theorem hintProfiles_unresolvable (cat : Catalog) (hints : List String)
    (h : ∀ lang ∈ hints, cat.lookup (normalizeHint lang) = none) :
    hintProfiles cat (some hints) = hintProfiles cat none := by
  have hres : (hints.map fun lang => cat.lookup (normalizeHint lang)).reduceOption = [] := by
    simp only [List.reduceOption, List.filterMap_eq_nil_iff]
    intro x hx
    obtain ⟨lang, hlang, rfl⟩ := List.mem_map.1 hx
    exact h lang hlang
  by_cases h0 : 0 < hints.length
  · simp only [hintProfiles, if_pos h0, hres, List.length_nil, if_true]
  · simp only [hintProfiles, if_neg h0]

/-- C6: hints none of which resolves against the catalog (after stripping
the region subtag and lowercasing) are silently ignored: detection falls
back to the full catalog and returns exactly the no-hints result. -/
theorem detectLanguage_unresolvable_hints (cat : Catalog) (text : String)
    (hints : List String)
    (h : ∀ lang ∈ hints, cat.lookup (normalizeHint lang) = none) :
    detectLanguage cat text (some hints) = detectLanguage cat text none := by
  simp only [detectLanguage, scoredSorted, hintProfiles_unresolvable cat hints h]

/-- Witness for C6: the unknown hints `["xx", "yy"]` leave the demo-catalog
result unchanged. -/
theorem detectLanguage_unresolvable_hints_witness :
    (∀ lang ∈ ["xx", "yy"], demoCatalog.lookup (normalizeHint lang) = none) ∧
    detectLanguage demoCatalog "hello world" (some ["xx", "yy"])
      = detectLanguage demoCatalog "hello world" none :=
  ⟨by decide,
    detectLanguage_unresolvable_hints demoCatalog "hello world" ["xx", "yy"] (by decide)⟩

/-! ### Wrapper determinism lemmas (C7) -/

theorem detect_ok_state (cat : Catalog) (st : DetectorState) (text : String)
    (h : st.destroyed = false) :
    ∃ r, LanguageDetector.detect cat st text
      = Except.ok (r, { st with inputQuota := max 0 (st.inputQuota - (text.length : ℤ)) }) := by
  cases hds : detectByScript text with
  | none =>
    simp only [LanguageDetector.detect, h, hds, Bool.false_eq_true, if_false]
    exact ⟨_, rfl⟩
  | some sr =>
    by_cases hc : (9 : ℚ) / 10 < sr.2
    · simp only [LanguageDetector.detect, h, hds, Bool.false_eq_true, if_false,
        if_pos hc]
      exact ⟨_, rfl⟩
    · simp only [LanguageDetector.detect, h, hds, Bool.false_eq_true, if_false,
        if_neg hc]
      exact ⟨_, rfl⟩

theorem detect_results_agree (cat : Catalog) (st st' : DetectorState) (text : String)
    (h : st.destroyed = false) (h' : st'.destroyed = false)
    (he : st.expectedInputLanguages = st'.expectedInputLanguages) :
    ∃ r q q', LanguageDetector.detect cat st text = Except.ok (r, q) ∧
      LanguageDetector.detect cat st' text = Except.ok (r, q') := by
  cases hds : detectByScript text with
  | none =>
    simp only [LanguageDetector.detect, h, h', he, hds, Bool.false_eq_true,
      if_false]
    exact ⟨_, _, _, rfl, rfl⟩
  | some sr =>
    by_cases hc : (9 : ℚ) / 10 < sr.2
    · simp only [LanguageDetector.detect, h, h', he, hds, Bool.false_eq_true,
        if_false, if_pos hc]
      exact ⟨_, _, _, rfl, rfl⟩
    · simp only [LanguageDetector.detect, h, h', he, hds, Bool.false_eq_true,
        if_false, if_neg hc]
      exact ⟨_, _, _, rfl, rfl⟩

/-- C7: detection output is deterministic and idempotent across the
wrapper's quota mutation: calling `detect` twice in a row on the same text
raises nothing and returns the same result list both times — the mutated
input-quota counter never influences the results. -/
theorem detect_idempotent (cat : Catalog) (st : DetectorState) (text : String)
    (h : st.destroyed = false) :
    ∃ r st1 st2, LanguageDetector.detect cat st text = Except.ok (r, st1) ∧
      LanguageDetector.detect cat st1 text = Except.ok (r, st2) := by
  obtain ⟨r, h1⟩ := detect_ok_state cat st text h
  have h1d : ({ st with inputQuota := max 0 (st.inputQuota - (text.length : ℤ)) }
      : DetectorState).destroyed = false := h
  obtain ⟨r2, h2⟩ := detect_ok_state cat _ text h1d
  obtain ⟨r0, q, q', e1, e2⟩ := detect_results_agree cat st
    { st with inputQuota := max 0 (st.inputQuota - (text.length : ℤ)) } text h h1d rfl
  rw [h1] at e1
  rw [h2] at e2
  injection e1 with e1p
  injection e1p with hra hqa
  injection e2 with e2p
  injection e2p with hrb hqb
  exact ⟨r, _, _, h1, by rw [h2, hrb, ← hra]⟩

/-- Witness for C7 at a concrete state and text. -/
theorem detect_idempotent_witness :
    (⟨false, [], 10000⟩ : DetectorState).destroyed = false ∧
    ∃ r st1 st2,
      LanguageDetector.detect demoCatalog ⟨false, [], 10000⟩ "ab"
        = Except.ok (r, st1) ∧
      LanguageDetector.detect demoCatalog st1 "ab" = Except.ok (r, st2) :=
  ⟨rfl, detect_idempotent demoCatalog ⟨false, [], 10000⟩ "ab" rfl⟩

/-! ### Softmax-normalizer lemmas (C1, C3) -/

theorem softmaxDenom_pos (scores : List (LanguageProfile × ℚ)) (h : scores ≠ []) :
    0 < softmaxDenom scores := by
  refine List.sum_pos _ ?_ (by simpa using h)
  intro x hx
  obtain ⟨s, _, rfl⟩ := List.mem_map.1 hx
  exact Real.exp_pos _

theorem softmaxResults_bounds (scores : List (LanguageProfile × ℚ)) :
    ∀ r ∈ softmaxResults scores, 0 ≤ r.confidence ∧ r.confidence ≤ 1 := by
  intro r hr
  obtain ⟨s, hs, rfl⟩ := List.mem_map.1 hr
  dsimp only
  by_cases h : 0 < softmaxDenom scores
  · rw [if_pos h]
    constructor
    · positivity
    · rw [div_le_one h]
      refine List.single_le_sum ?_ _ (List.mem_map.2 ⟨s, hs, rfl⟩)
      intro x hx
      obtain ⟨t, _, rfl⟩ := List.mem_map.1 hx
      exact le_of_lt (Real.exp_pos _)
  · rw [if_neg h]
    norm_num

theorem softmaxResults_sorted (scores : List (LanguageProfile × ℚ))
    (h : List.Sorted descScore scores) :
    List.Sorted descConf (softmaxResults scores) := by
  rw [softmaxResults, List.Sorted, List.pairwise_map]
  refine h.imp ?_
  intro a b hab
  show (if 0 < softmaxDenom scores then _ else (0 : ℝ))
      ≤ (if 0 < softmaxDenom scores then _ else (0 : ℝ))
  by_cases h0 : 0 < softmaxDenom scores
  · rw [if_pos h0, if_pos h0]
    refine (div_le_div_right h0).2 (Real.exp_le_exp.2 ?_)
    have : (b.2 : ℝ) ≤ (a.2 : ℝ) := by exact_mod_cast hab
    nlinarith
  · rw [if_neg h0, if_neg h0]

theorem survivors_sublist (scores : List (LanguageProfile × ℚ)) :
    (survivors scores).Sublist (softmaxResults scores) :=
  List.Sublist.trans (List.take_sublist _ _) (List.filter_sublist _)

theorem mem_survivors_conf (scores : List (LanguageProfile × ℚ)) :
    ∀ r ∈ survivors scores, (1 : ℝ) / 1000 < r.confidence := by
  intro r hr
  have := (List.take_sublist 10 _).subset hr
  exact of_decide_eq_true (List.mem_filter.1 this).2

theorem normalizeAndFilter_spec (scores : List (LanguageProfile × ℚ))
    (hsort : List.Sorted descScore scores) :
    normalizeAndFilter scores ≠ [] ∧
    (∀ r ∈ normalizeAndFilter scores, 0 ≤ r.confidence ∧ r.confidence ≤ 1) ∧
    List.Sorted descConf (normalizeAndFilter scores) := by
  rw [normalizeAndFilter]
  by_cases he : (survivors scores).isEmpty
  · rw [if_pos he]
    refine ⟨by simp, ?_, List.sorted_singleton _⟩
    intro r hr
    rw [List.mem_singleton] at hr
    subst hr
    exact ⟨le_refl 0, by norm_num [undResult]⟩
  · rw [if_neg he]
    refine ⟨fun hnil => he (by rw [hnil]; rfl), ?_, ?_⟩
    · intro r hr
      exact softmaxResults_bounds scores r ((survivors_sublist scores).subset hr)
    · exact (softmaxResults_sorted scores hsort).sublist (survivors_sublist scores)

theorem scoredSorted_sorted (cat : Catalog) (hints : Option (List String))
    (normalizedText : String) :
    List.Sorted descScore (scoredSorted cat hints normalizedText) := by
  rw [scoredSorted]
  exact List.sorted_insertionSort descScore _

/-- C1: for every catalog, hint list and text, `detectLanguage` returns a
non-empty list, every confidence lies in `[0, 1]`, and the list is sorted
non-increasing by confidence (the score-descending sort composed with the
strictly monotone softmax yields a confidence-descending list). -/
theorem detectLanguage_spec (cat : Catalog) (hints : Option (List String))
    (text : String) :
    detectLanguage cat text hints ≠ [] ∧
    (∀ r ∈ detectLanguage cat text hints,
      0 ≤ r.confidence ∧ r.confidence ≤ 1) ∧
    List.Sorted descConf (detectLanguage cat text hints) := by
  rw [detectLanguage]
  by_cases h0 : (String.mk (trimChars text.data)).length = 0
  · rw [if_pos h0]
    refine ⟨by simp, ?_, List.sorted_singleton _⟩
    intro r hr
    rw [List.mem_singleton] at hr
    subst hr
    exact ⟨le_refl 0, by norm_num [undResult]⟩
  · rw [if_neg h0]
    exact normalizeAndFilter_spec _ (scoredSorted_sorted cat hints _)

/-- Witness for C1 at a concrete input. -/
theorem detectLanguage_spec_witness :
    detectLanguage demoCatalog "" none ≠ [] ∧
    List.Sorted descConf (detectLanguage demoCatalog "" none) :=
  ⟨(detectLanguage_spec demoCatalog none "").1,
    (detectLanguage_spec demoCatalog none "").2.2⟩

/-- C3: on every non-degenerate input the normalizer computes each
candidate's confidence as `exp(score*10)` over the sum of `exp(score*10)`
across ALL scored candidates (all zero when the sum is zero — a situation
that cannot arise for a non-empty candidate list, where the sum is
positive), keeps only confidences above 0.001, truncates to at most 10
entries, and produces the `{und, 0}` sentinel exactly when nothing survives
the filter. -/
theorem normalizer_spec (cat : Catalog) (hints : Option (List String))
    (text : String) (h : ¬ (String.mk (trimChars text.data)).length = 0) :
    (scoredSorted cat hints (String.mk (trimChars text.data)) ≠ [] →
      0 < softmaxDenom (scoredSorted cat hints (String.mk (trimChars text.data)))) ∧
    (∀ (i : ℕ) (p : LanguageProfile) (s : ℚ),
      (scoredSorted cat hints (String.mk (trimChars text.data)))[i]? = some (p, s) →
      (softmaxResults (scoredSorted cat hints (String.mk (trimChars text.data))))[i]?
        = some ⟨p.code,
            if 0 < softmaxDenom (scoredSorted cat hints (String.mk (trimChars text.data)))
            then Real.exp ((s : ℝ) * 10)
              / softmaxDenom (scoredSorted cat hints (String.mk (trimChars text.data)))
            else 0⟩) ∧
    (softmaxDenom (scoredSorted cat hints (String.mk (trimChars text.data))) = 0 →
      ∀ r ∈ softmaxResults (scoredSorted cat hints (String.mk (trimChars text.data))),
        r.confidence = 0) ∧
    (detectLanguage cat text hints).length ≤ 10 ∧
    (detectLanguage cat text hints ≠ [undResult] →
      detectLanguage cat text hints
        = survivors (scoredSorted cat hints (String.mk (trimChars text.data))) ∧
      ∀ r ∈ detectLanguage cat text hints,
        r ∈ softmaxResults (scoredSorted cat hints (String.mk (trimChars text.data))) ∧
        (1 : ℝ) / 1000 < r.confidence) ∧
    (detectLanguage cat text hints = [undResult] ↔
      ∀ r ∈ softmaxResults (scoredSorted cat hints (String.mk (trimChars text.data))),
        r.confidence ≤ 1 / 1000) := by
  set S := scoredSorted cat hints (String.mk (trimChars text.data)) with hSdef
  have hdet : detectLanguage cat text hints = normalizeAndFilter S := by
    rw [detectLanguage, if_neg h]
  refine ⟨softmaxDenom_pos S, ?_, ?_, ?_, ?_, ?_⟩
  · intro i p s hi
    rw [softmaxResults, List.getElem?_map, hi]
    rfl
  · intro hd r hr
    obtain ⟨s, _, rfl⟩ := List.mem_map.1 hr
    have : ¬ 0 < softmaxDenom S := by rw [hd]; exact lt_irrefl 0
    simp only [if_neg this]
  · rw [hdet, normalizeAndFilter]
    by_cases he : (survivors S).isEmpty
    · rw [if_pos he]
      simp
    · rw [if_neg he, survivors]
      exact (List.length_take _ _).le.trans (min_le_left _ _)
  · intro hne
    rw [hdet, normalizeAndFilter] at hne ⊢
    by_cases he : (survivors S).isEmpty
    · exact absurd rfl (by rw [if_pos he] at hne; exact hne)
    · rw [if_neg he]
      exact ⟨rfl, fun r hr =>
        ⟨(survivors_sublist S).subset hr, mem_survivors_conf S r hr⟩⟩
  · constructor
    · intro hu
      by_cases he : (survivors S).isEmpty
      · have hsurv : survivors S = [] := List.isEmpty_iff.1 he
        rw [survivors] at hsurv
        have hfil : (softmaxResults S).filter
            (fun r => decide ((1 : ℝ) / 1000 < r.confidence)) = [] := by
          rcases List.take_eq_nil_iff.1 hsurv with h10 | hf
          · cases h10
          · exact hf
        intro r hr
        have := List.filter_eq_nil_iff.1 hfil r hr
        simpa using this
      · rw [hdet, normalizeAndFilter, if_neg he] at hu
        have : undResult ∈ survivors S := by rw [hu]; exact List.mem_singleton_self _
        have := mem_survivors_conf S undResult this
        norm_num [undResult] at this
    · intro hall
      have hfil : (softmaxResults S).filter
          (fun r => decide ((1 : ℝ) / 1000 < r.confidence)) = [] := by
        refine List.filter_eq_nil_iff.2 ?_
        intro r hr
        simpa using not_lt.2 (hall r hr)
      rw [hdet, normalizeAndFilter, if_pos (by rw [survivors, hfil]; rfl)]

/-- Witness for C3 at a concrete input. -/
theorem normalizer_spec_witness :
    ¬ (String.mk (trimChars "ab".data)).length = 0 ∧
    (scoredSorted demoCatalog none (String.mk (trimChars "ab".data)) ≠ [] →
      0 < softmaxDenom (scoredSorted demoCatalog none (String.mk (trimChars "ab".data)))) :=
  ⟨by decide, (normalizer_spec demoCatalog none "ab" (by decide)).1⟩

/-! ### Concrete evaluation lemmas for the demo catalog (C2, C10) -/

theorem trim_ab : String.mk (trimChars "ab".data) = "ab" := by decide

theorem analyzeScripts_ab : analyzeScripts "ab" = [⟨"Latin", 2, 1⟩] := by
  rw [analyzeScripts,
    (by decide : scriptCountsOf "ab" = [("Latin", 2)]),
    (by decide : totalScriptChars "ab" = 2)]
  norm_num [List.insertionSort]

theorem extractTrigrams_ab : extractTrigrams "ab" = [] := by decide

theorem scoreOf_ab_en : scoreOf [⟨"Latin", 2, 1⟩] [] enProfile = 0 := by
  rw [scoreOf,
    (by decide : List.find? (fun s => enProfile.scripts.contains s.script)
      [(⟨"Latin", 2, 1⟩ : ScriptInfo)] = some ⟨"Latin", 2, 1⟩)]
  simp [calculateTrigramScore]

theorem scoredSorted_demo_ab :
    scoredSorted demoCatalog none (String.mk (trimChars "ab".data))
      = [(enProfile, 0)] := by
  rw [trim_ab, scoredSorted, analyzeScripts_ab, extractTrigrams_ab]
  simp only [hintProfiles, filterProfilesByScript]
  rw [if_pos (by norm_num : (1 : ℚ) / 2 < (⟨"Latin", 2, 1⟩ : ScriptInfo).ratio),
    (by decide : demoCatalog.profiles.filter
      (fun p => p.scripts.contains (⟨"Latin", 2, 1⟩ : ScriptInfo).script)
      = [enProfile]),
    if_pos (by decide : 0 < [enProfile].length)]
  rw [List.map_cons, List.map_nil, scoreOf_ab_en]
  simp [List.insertionSort]

theorem softmaxDenom_replicate_zero (p : LanguageProfile) (n : ℕ) :
    softmaxDenom (List.replicate n (p, 0)) = (n : ℝ) := by
  rw [softmaxDenom, List.map_replicate]
  simp [List.sum_replicate, Real.exp_zero]

theorem softmaxResults_replicate_zero (p : LanguageProfile) (n : ℕ) (hn : 0 < n) :
    softmaxResults (List.replicate n (p, 0))
      = List.replicate n ⟨p.code, 1 / (n : ℝ)⟩ := by
  rw [softmaxResults, List.map_replicate]
  simp only [softmaxDenom_replicate_zero]
  rw [if_pos (by exact_mod_cast hn)]
  simp [Real.exp_zero]

theorem survivors_single_zero (p : LanguageProfile) :
    survivors [(p, 0)] = [⟨p.code, 1⟩] := by
  have h1 : softmaxResults [(p, 0)] = [⟨p.code, 1⟩] := by
    have := softmaxResults_replicate_zero p 1 (by norm_num)
    simpa using this
  rw [survivors, h1]
  rw [List.filter_cons, List.filter_nil]
  rw [if_pos (by simp; norm_num)]
  rfl

theorem normalizeAndFilter_single_zero (p : LanguageProfile) :
    normalizeAndFilter [(p, 0)] = [⟨p.code, 1⟩] := by
  rw [normalizeAndFilter, survivors_single_zero, if_neg (by simp)]

/-- Counterexample to C2 as stated: `"ab"` has fewer than 3 normalized
characters, yet the engine returns the full-confidence English candidate
rather than the `{und, 0}` sentinel. -/
theorem detectLanguage_short_not_und :
    (normalizeChars "ab").length < 3 ∧
    detectLanguage demoCatalog "ab" none = [⟨"en", 1⟩] ∧
    detectLanguage demoCatalog "ab" none ≠ [undResult] := by
  have hd : detectLanguage demoCatalog "ab" none = [⟨"en", 1⟩] := by
    rw [detectLanguage, if_neg (by decide), scoredSorted_demo_ab,
      normalizeAndFilter_single_zero]
    rfl
  refine ⟨by decide, hd, ?_⟩
  rw [hd]
  intro hcontra
  injection hcontra with h1 h2
  injection h1 with hcode hconf
  exact absurd hcode (by decide)

/-- C2 amended: the engine raises no fault for any text input — every
call, including those on empty strings, strings with no script-matched
characters, and strings under 3 normalized characters, degrades gracefully
to a non-empty result list; whenever the trimmed input is empty the result
is exactly the `{und, 0}` sentinel, in particular
`detect("") = [{und, 0}]` (but the other degenerate inputs are not in
general answered by the sentinel). -/
theorem detectLanguage_degenerate_graceful (cat : Catalog)
    (hints : Option (List String)) (text : String) :
    ((String.mk (trimChars text.data)).length = 0 →
      detectLanguage cat text hints = [undResult]) ∧
    detectLanguage cat text hints ≠ [] := by
  constructor
  · intro h
    rw [detectLanguage, if_pos h]
  · rw [detectLanguage]
    by_cases h0 : (String.mk (trimChars text.data)).length = 0
    · rw [if_pos h0]
      simp
    · rw [if_neg h0]
      exact (normalizeAndFilter_spec _ (scoredSorted_sorted cat hints _)).1

/-- Witness for the amended C2: `detect("")` is non-empty and is exactly
the sentinel. -/
theorem detectLanguage_degenerate_graceful_witness :
    detectLanguage demoCatalog "" none ≠ [] ∧
    detectLanguage demoCatalog "" none = [undResult] :=
  ⟨(detectLanguage_degenerate_graceful demoCatalog none "").2,
    (detectLanguage_degenerate_graceful demoCatalog none "").1 (by decide)⟩

/-! ### Candidate-set lemmas and the sentinel-freedom theorem (C10) -/

theorem hintProfiles_ne_nil (cat : Catalog) (hints : Option (List String))
    (h2 : cat.profiles ≠ []) : hintProfiles cat hints ≠ [] := by
  cases hints with
  | none => exact h2
  | some hs =>
    simp only [hintProfiles]
    by_cases h0 : 0 < hs.length
    · rw [if_pos h0]
      by_cases hres : ((hs.map fun lang =>
          cat.lookup (normalizeHint lang)).reduceOption).length = 0
      · rw [if_pos hres]
        exact h2
      · rw [if_neg hres]
        intro hnil
        exact hres (by rw [hnil]; rfl)
    · rw [if_neg h0]
      exact h2

theorem hintProfiles_length_lt (cat : Catalog) (hints : Option (List String))
    (h3 : cat.profiles.length < 1000)
    (h4 : ∀ hs, hints = some hs → hs.length < 1000) :
    (hintProfiles cat hints).length < 1000 := by
  cases hints with
  | none => exact h3
  | some hs =>
    simp only [hintProfiles]
    by_cases h0 : 0 < hs.length
    · rw [if_pos h0]
      by_cases hres : ((hs.map fun lang =>
          cat.lookup (normalizeHint lang)).reduceOption).length = 0
      · rw [if_pos hres]
        exact h3
      · rw [if_neg hres]
        calc ((hs.map fun lang => cat.lookup (normalizeHint lang)).reduceOption).length
            ≤ (hs.map fun lang => cat.lookup (normalizeHint lang)).length :=
              List.reduceOption_length_le _
          _ = hs.length := List.length_map ..
          _ < 1000 := h4 hs rfl
    · rw [if_neg h0]
      exact h3

theorem filterProfilesByScript_ne_nil (profiles : List LanguageProfile)
    (scripts : List ScriptInfo) (h : profiles ≠ []) :
    filterProfilesByScript profiles scripts ≠ [] := by
  cases scripts with
  | nil => exact h
  | cons d rest =>
    simp only [filterProfilesByScript]
    by_cases hd : (1 : ℚ) / 2 < d.ratio
    · rw [if_pos hd]
      by_cases hf : 0 < (profiles.filter fun p => p.scripts.contains d.script).length
      · rw [if_pos hf]
        exact List.length_pos.1 hf
      · rw [if_neg hf]
        exact h
    · rw [if_neg hd]
      exact h

theorem filterProfilesByScript_length_le (profiles : List LanguageProfile)
    (scripts : List ScriptInfo) :
    (filterProfilesByScript profiles scripts).length ≤ profiles.length := by
  cases scripts with
  | nil => exact le_refl _
  | cons d rest =>
    simp only [filterProfilesByScript]
    by_cases hd : (1 : ℚ) / 2 < d.ratio
    · rw [if_pos hd]
      by_cases hf : 0 < (profiles.filter fun p => p.scripts.contains d.script).length
      · rw [if_pos hf]
        exact List.length_filter_le _ _
      · rw [if_neg hf]
    · rw [if_neg hd]

theorem scoredSorted_length (cat : Catalog) (hints : Option (List String))
    (normalizedText : String) :
    (scoredSorted cat hints normalizedText).length
      = (filterProfilesByScript (hintProfiles cat hints)
          (analyzeScripts normalizedText)).length := by
  rw [scoredSorted, List.length_insertionSort, List.length_map]

theorem scoredSorted_ne_nil (cat : Catalog) (hints : Option (List String))
    (normalizedText : String) (h2 : cat.profiles ≠ []) :
    scoredSorted cat hints normalizedText ≠ [] := by
  intro hnil
  have hlen := congrArg List.length hnil
  rw [scoredSorted_length, List.length_nil] at hlen
  exact filterProfilesByScript_ne_nil _ _ (hintProfiles_ne_nil cat hints h2)
    (List.length_eq_zero.1 hlen)

theorem sum_map_one {α : Type} : ∀ l : List α,
    (l.map fun _ => (1 : ℝ)).sum = (l.length : ℝ)
  | [] => by simp
  | x :: l => by simp [sum_map_one l]; ring

/-- C10 amended: for a non-empty text, a non-empty catalog of fewer than
1000 profiles, and fewer than 1000 hints (the claim omitted this last
condition: enough duplicate hints inflate the candidate list until every
confidence falls below the 0.001 cutoff), `detectLanguage` never returns
the `{und, 0}` sentinel: every exponential weight is positive, the top
candidate's confidence is at least `1/candidateCount > 0.001`, and when all
raw scores are zero every returned confidence is exactly
`1/candidateCount`. -/
theorem detectLanguage_not_und (cat : Catalog) (hints : Option (List String))
    (text : String) (h1 : ¬ (String.mk (trimChars text.data)).length = 0)
    (h2 : cat.profiles ≠ []) (h3 : cat.profiles.length < 1000)
    (h4 : ∀ hs, hints = some hs → hs.length < 1000) :
    detectLanguage cat text hints ≠ [undResult] ∧
    (∀ r ∈ detectLanguage cat text hints, (1 : ℝ) / 1000 < r.confidence) ∧
    ((∀ s ∈ scoredSorted cat hints (String.mk (trimChars text.data)), s.2 = 0) →
      ∀ r ∈ detectLanguage cat text hints,
        r.confidence = 1 /
          ((scoredSorted cat hints (String.mk (trimChars text.data))).length : ℝ)) := by
  set S := scoredSorted cat hints (String.mk (trimChars text.data)) with hSdef
  have hS_ne : S ≠ [] := scoredSorted_ne_nil cat hints _ h2
  have hn_pos : 0 < S.length := List.length_pos.2 hS_ne
  have hn_lt : S.length < 1000 := by
    rw [hSdef, scoredSorted_length]
    exact lt_of_le_of_lt (filterProfilesByScript_length_le _ _)
      (hintProfiles_length_lt cat hints h3 h4)
  have hdpos : 0 < softmaxDenom S := softmaxDenom_pos S hS_ne
  obtain ⟨a, t, heq⟩ := List.exists_cons_of_ne_nil hS_ne
  have hmax : ∀ x ∈ S, x.2 ≤ a.2 := by
    have hsorted : List.Sorted descScore S := hSdef ▸ scoredSorted_sorted cat hints _
    rw [heq] at hsorted
    intro x hx
    rw [heq, List.mem_cons] at hx
    rcases hx with rfl | hx
    · exact le_refl _
    · exact List.rel_of_sorted_cons hsorted x hx
  have hdenom_le : softmaxDenom S ≤ (S.length : ℝ) * Real.exp ((a.2 : ℝ) * 10) := by
    have := List.sum_le_card_nsmul (S.map fun s => Real.exp ((s.2 : ℝ) * 10))
      (Real.exp ((a.2 : ℝ) * 10)) ?_
    · rw [List.length_map, nsmul_eq_mul] at this
      exact this
    · intro x hx
      obtain ⟨s, hs, rfl⟩ := List.mem_map.1 hx
      refine Real.exp_le_exp.2 ?_
      have : (s.2 : ℝ) ≤ (a.2 : ℝ) := by exact_mod_cast hmax s hs
      nlinarith
  have hr0mem : (⟨a.1.code, Real.exp ((a.2 : ℝ) * 10) / softmaxDenom S⟩ :
      LanguageDetectionResult) ∈ softmaxResults S := by
    refine List.mem_map.2 ⟨a, by rw [heq]; exact List.mem_cons_self a t, ?_⟩
    rw [if_pos hdpos]
  have hr0conf : (1 : ℝ) / 1000 < Real.exp ((a.2 : ℝ) * 10) / softmaxDenom S := by
    have hstepA : Real.exp ((a.2 : ℝ) * 10) / ((S.length : ℝ) * Real.exp ((a.2 : ℝ) * 10))
        ≤ Real.exp ((a.2 : ℝ) * 10) / softmaxDenom S :=
      div_le_div_of_nonneg_left (le_of_lt (Real.exp_pos _)) hdpos hdenom_le
    have hstepB : Real.exp ((a.2 : ℝ) * 10) / ((S.length : ℝ) * Real.exp ((a.2 : ℝ) * 10))
        = 1 / (S.length : ℝ) := by
      rw [mul_comm ((S.length : ℝ)) (Real.exp ((a.2 : ℝ) * 10)),
        div_mul_eq_div_div, div_self (ne_of_gt (Real.exp_pos _))]
    have hstepC : (1 : ℝ) / 1000 < 1 / (S.length : ℝ) := by
      refine one_div_lt_one_div_of_lt (by exact_mod_cast hn_pos) ?_
      exact_mod_cast hn_lt
    calc (1 : ℝ) / 1000 < 1 / (S.length : ℝ) := hstepC
      _ = Real.exp ((a.2 : ℝ) * 10) / ((S.length : ℝ) * Real.exp ((a.2 : ℝ) * 10)) :=
        hstepB.symm
      _ ≤ Real.exp ((a.2 : ℝ) * 10) / softmaxDenom S := hstepA
  have hsurv_ne : survivors S ≠ [] := by
    have hmemf : (⟨a.1.code, Real.exp ((a.2 : ℝ) * 10) / softmaxDenom S⟩ :
        LanguageDetectionResult) ∈ (softmaxResults S).filter
          (fun r => decide ((1 : ℝ) / 1000 < r.confidence)) :=
      List.mem_filter.2 ⟨hr0mem, decide_eq_true hr0conf⟩
    rw [survivors]
    intro hnil
    rcases List.take_eq_nil_iff.1 hnil with h10 | hf
    · cases h10
    · exact List.ne_nil_of_mem hmemf hf
  have hdet : detectLanguage cat text hints = survivors S := by
    rw [detectLanguage, if_neg h1, normalizeAndFilter,
      if_neg (fun hemp => hsurv_ne (List.isEmpty_iff.1 hemp))]
  refine ⟨?_, ?_, ?_⟩
  · intro hu
    have : undResult ∈ survivors S := by
      rw [← hdet, hu]
      exact List.mem_singleton_self _
    have := mem_survivors_conf S undResult this
    norm_num [undResult] at this
  · intro r hr
    rw [hdet] at hr
    exact mem_survivors_conf S r hr
  · intro hzero r hr
    rw [hdet] at hr
    have hrmem : r ∈ softmaxResults S := (survivors_sublist S).subset hr
    obtain ⟨s, hs, rfl⟩ := List.mem_map.1 hrmem
    have hmapeq : S.map (fun s => Real.exp ((s.2 : ℝ) * 10))
        = S.map (fun _ => (1 : ℝ)) := by
      refine List.map_congr_left ?_
      intro x hx
      rw [hzero x hx]
      norm_num
    have hden : softmaxDenom S = (S.length : ℝ) := by
      rw [softmaxDenom, hmapeq, sum_map_one]
    have hgoal : (if 0 < softmaxDenom S then
          Real.exp ((s.2 : ℝ) * 10) / softmaxDenom S else 0)
        = 1 / (S.length : ℝ) := by
      rw [if_pos hdpos, hzero s hs, hden]
      norm_num [Real.exp_zero]
    exact hgoal

/-- Witness for the amended C10 at a concrete input. -/
theorem detectLanguage_not_und_witness :
    ¬ (String.mk (trimChars "ab".data)).length = 0 ∧
    demoCatalog.profiles ≠ [] ∧ demoCatalog.profiles.length < 1000 ∧
    detectLanguage demoCatalog "ab" none ≠ [undResult] :=
  ⟨by decide, by decide, by decide,
    (detectLanguage_not_und demoCatalog none "ab" (by decide) (by decide)
      (by decide) (fun hs h => by cases h)).1⟩

/-! ### Counterexample to C10 as stated: 1000 duplicate hints -/

theorem reduceOption_replicate_some {α : Type} (a : α) :
    ∀ n : ℕ, (List.replicate n (some a)).reduceOption = List.replicate n a
  | 0 => rfl
  | n + 1 => by
    rw [List.replicate_succ, List.replicate_succ,
      List.reduceOption_cons_of_some, reduceOption_replicate_some a n]

theorem insertionSort_replicate {α : Type} (r : α → α → Prop) [DecidableRel r]
    (x : α) (hr : r x x) :
    ∀ n : ℕ, List.insertionSort r (List.replicate n x) = List.replicate n x
  | 0 => rfl
  | n + 1 => by
    rw [List.replicate_succ, List.insertionSort, insertionSort_replicate r x hr n]
    cases n with
    | zero => rfl
    | succ m =>
      rw [List.replicate_succ, List.orderedInsert, if_pos hr,
        ← List.replicate_succ, ← List.replicate_succ]

theorem hintProfiles_demo_replicate :
    hintProfiles demoCatalog (some (List.replicate 1000 "en"))
      = List.replicate 1000 enProfile := by
  simp only [hintProfiles]
  rw [if_pos (by rw [List.length_replicate]; norm_num :
      0 < (List.replicate 1000 "en").length),
    List.map_replicate,
    (by decide : demoCatalog.lookup (normalizeHint "en") = some enProfile),
    reduceOption_replicate_some,
    if_neg (by rw [List.length_replicate]; norm_num :
      ¬ (List.replicate 1000 enProfile).length = 0)]

theorem scoredSorted_demo_replicate :
    scoredSorted demoCatalog (some (List.replicate 1000 "en"))
        (String.mk (trimChars "ab".data))
      = List.replicate 1000 (enProfile, 0) := by
  rw [trim_ab, scoredSorted, analyzeScripts_ab, extractTrigrams_ab,
    hintProfiles_demo_replicate]
  simp only [filterProfilesByScript]
  rw [if_pos (by norm_num : (1 : ℚ) / 2 < (⟨"Latin", 2, 1⟩ : ScriptInfo).ratio),
    List.filter_replicate,
    if_pos (by decide : (enProfile.scripts.contains
      (⟨"Latin", 2, 1⟩ : ScriptInfo).script) = true),
    if_pos (by rw [List.length_replicate]; norm_num :
      0 < (List.replicate 1000 enProfile).length),
    List.map_replicate, scoreOf_ab_en]
  exact insertionSort_replicate descScore (enProfile, 0) (le_refl (0 : ℚ)) 1000

theorem survivors_thousand_zero (p : LanguageProfile) :
    survivors (List.replicate 1000 (p, 0)) = [] := by
  rw [survivors, softmaxResults_replicate_zero p 1000 (by norm_num),
    List.filter_replicate,
    if_neg (by
      simp only [decide_eq_true_eq, not_lt]
      norm_num),
    List.take_nil]

/-- Counterexample to C10 as stated: with the one-profile demo catalog
(non-empty, fewer than 1000 entries) and a non-empty text, a hint list of
1000 copies of `"en"` resolves to 1000 candidates of confidence
`1/1000 ≤ 0.001` each, so everything is filtered out and the engine does
return the `{und, 0}` sentinel. -/
theorem detectLanguage_und_with_many_hints :
    ¬ (String.mk (trimChars "ab".data)).length = 0 ∧
    demoCatalog.profiles ≠ [] ∧ demoCatalog.profiles.length < 1000 ∧
    detectLanguage demoCatalog "ab" (some (List.replicate 1000 "en"))
      = [undResult] := by
  refine ⟨by decide, by decide, by decide, ?_⟩
  rw [detectLanguage, if_neg (by decide), scoredSorted_demo_replicate,
    normalizeAndFilter, if_pos (by rw [survivors_thousand_zero]; rfl)]

end LangDetect
